import Mathlib

/-!
Verification development for the rose_arch incremental archive engine
(lib/python/rose/apps/rose_arch.py) and its fingerprint module
(lib/python/rose/checksum.py).

The Python code is shallowly embedded: classes become structures, the
SQLite store becomes explicit lists of rows in insertion order, Python
dicts become association lists with insert-or-replace semantics, and the
external archive command becomes an oracle function supplied to the run.
Each definition carries a reference to the source lines it embeds.
-/

/-! ## Python dict (association list with insert-or-replace, keeping order) -/

/-- `d[k]` lookup on a Python dict: first (and, for a well-formed dict,
only) binding of the key. -/
def dictLookup {α : Type} : List (String × α) → String → Option α
  | [], _ => none
  | (k, v) :: rest, key => if k = key then some v else dictLookup rest key

/-- `d[k] = v` on a Python dict: replace the value in place if the key is
present (keeping its position), otherwise append the new binding. -/
def dictInsert {α : Type} : List (String × α) → String → α → List (String × α)
  | [], k, v => [(k, v)]
  | (k', v') :: rest, k, v =>
    if k' = k then (k, v) :: rest else (k', v') :: dictInsert rest k v

/-! ## Data model (rose_arch.py lines 232-280) -/

/-- Status markers of `RoseArchTarget` (lines 236-238). -/
def ST_OLD : String := "="

/-- `RoseArchTarget.ST_NEW` (line 237). -/
def ST_NEW : String := "+"

/-- `RoseArchTarget.ST_BAD` (line 238). -/
def ST_BAD : String := "!"

/-- `RoseArchSource` (lines 261-270): one archive source.  The constructor
sets `name := orig_name` and `path := orig_path`. -/
structure RoseArchSource where
  checksum : String
  orig_name : String
  orig_path : Option String
  name : String
  path : Option String
deriving DecidableEq

/-- `RoseArchSource.__init__` (lines 265-270). -/
def RoseArchSource.init (checksum orig_name : String)
    (orig_path : Option String) : RoseArchSource :=
  ⟨checksum, orig_name, orig_path, orig_name, orig_path⟩

/-- `RoseArchTarget` (lines 232-247): a named unit of archival work.
`sources` is the Python dict mapping checksum to source (line 245). -/
structure RoseArchTarget where
  name : String
  compress_scheme : Option String := none
  command_format : Option String := none
  command_rc : Int := 0
  sources : List (String × RoseArchSource) := []
  status : Option String := none
  work_source_path : Option String := none
deriving DecidableEq

/-- `RoseArchSource.__eq__` (lines 272-277): sources compare equal on the
`checksum` and `name` attributes only. -/
def sourceEq (a b : RoseArchSource) : Bool :=
  a.checksum == b.checksum && a.name == b.name

/-- Equality of two `sources` dicts, as Python dict equality dispatching to
`RoseArchSource.__eq__` on the values: every binding of one side is matched
by an equal binding of the other, and the key sets coincide. -/
def sourcesEq (a b : List (String × RoseArchSource)) : Bool :=
  (a.all fun kv =>
    match dictLookup b kv.1 with
    | some w => sourceEq kv.2 w
    | none => false) &&
  (b.all fun kv => (dictLookup a kv.1).isSome)

/-- `RoseArchTarget.__eq__` (lines 249-255): targets compare equal on
`name`, `compress_scheme`, `command_format`, `command_rc` and `sources`.
(The `id(self) != id(other)` fast path and the `getattr` default never
matter when both operands are targets, as in every call site.) -/
def targetEq (a b : RoseArchTarget) : Bool :=
  a.name == b.name &&
  a.compress_scheme == b.compress_scheme &&
  a.command_format == b.command_format &&
  a.command_rc == b.command_rc &&
  sourcesEq a.sources b.sources

/-! ## Persisted store (rose_arch.py lines 283-400)

The SQLite file holds two tables (lines 313-323); each is modelled as a
list of rows in insertion order, which is the order the unordered SELECT
statements of this module return rows in. -/

/-- One row of the `targets` table (lines 313-318). -/
structure TargetRow where
  target_name : String
  compress_scheme : Option String
  command_format : Option String
  command_rc : Int
deriving DecidableEq

/-- One row of the `sources` table (lines 319-323). -/
structure SourceRow where
  target_name : String
  source_name : String
  checksum : String
deriving DecidableEq

/-- The persisted store: contents of the two tables. -/
structure DB where
  targets : List TargetRow
  sources : List SourceRow
deriving DecidableEq

/-- The freshly created store (`RoseArchDAO.create`, lines 308-324). -/
def emptyDB : DB := ⟨[], []⟩

/-- `RoseArchDAO.delete` (lines 326-333): remove the rows of one target
name from both tables. -/
def DB.delete (db : DB) (target_name : String) : DB :=
  ⟨db.targets.filter fun r => r.target_name != target_name,
   db.sources.filter fun r => r.target_name != target_name⟩

/-- `RoseArchDAO.delete_all` (lines 335-349): delete every row whose
target name differs from all of `filter_targets` (with an empty filter
list the statement has no WHERE clause and clears both tables, which
coincides with keeping rows matching one of zero names). -/
def DB.delete_all (db : DB) (filter_targets : List RoseArchTarget) : DB :=
  ⟨db.targets.filter fun r => filter_targets.any fun t => t.name == r.target_name,
   db.sources.filter fun r => filter_targets.any fun t => t.name == r.target_name⟩

/-- The `targets` row written by `RoseArchDAO.insert` (lines 355-358). -/
def targetRowOf (target : RoseArchTarget) : TargetRow :=
  ⟨target.name, target.compress_scheme, target.command_format, target.command_rc⟩

/-- The `sources` rows written by `RoseArchDAO.insert` (lines 359-362):
one row per binding of the sources dict, storing the current source name
and the checksum key. -/
def sourceRowsOf (target : RoseArchTarget) : List SourceRow :=
  target.sources.map fun kv => ⟨target.name, kv.2.name, kv.1⟩

/-- `RoseArchDAO.insert` (lines 351-363). -/
def DB.insert (db : DB) (target : RoseArchTarget) : DB :=
  ⟨db.targets ++ [targetRowOf target], db.sources ++ sourceRowsOf target⟩

/-- `RoseArchDAO.select` (lines 365-392): take the first `targets` row of
the given name (none means the target is unknown), then rebuild the
sources dict from the `sources` rows of that name, with
`RoseArchSource(checksum, source_name)` as the reconstructed value. -/
def DB.select (db : DB) (target_name : String) : Option RoseArchTarget :=
  match db.targets.find? (fun r => r.target_name == target_name) with
  | none => none
  | some row =>
    some { name := target_name,
           compress_scheme := row.compress_scheme,
           command_format := row.command_format,
           command_rc := row.command_rc,
           sources :=
             (db.sources.filter fun r => r.target_name == target_name).foldl
               (fun m r => dictInsert m r.checksum
                 (RoseArchSource.init r.checksum r.source_name none)) [] }

/-- `RoseArchDAO.update_command_rc` (lines 394-400). -/
def DB.update_command_rc (db : DB) (target : RoseArchTarget) : DB :=
  ⟨db.targets.map fun r =>
     if r.target_name == target.name then { r with command_rc := target.command_rc } else r,
   db.sources⟩

/-! ## The run pipeline (RoseArchApp._run, lines 78-216)

The Target Resolver part of `_run` (glob expansion, fingerprinting,
compression-scheme selection and rename templating, lines 89-152) is a
pure function of the configuration, the filesystem snapshot and the cycle
identifier; its output for one target is captured by `TargetSpec` below,
and the change-detection, pruning and command phases (lines 153-216) are
modelled exactly over that output. -/

/-- One resolved source of a target: the fingerprint, the original
(prefix-stripped) name and path, and the name after rename-format
application (equal to the original name when no rename is configured). -/
structure SourceSpec where
  checksum : String
  orig_name : String
  orig_path : String
  name : String
deriving DecidableEq

/-- One resolved target specification: the prefixed target name, the
selected compression scheme, the compulsory command format and the
resolved source list in glob/walk order. -/
structure TargetSpec where
  name : String
  compress_scheme : Option String
  command_format : String
  sources : List SourceSpec
deriving DecidableEq

/-- Construction of the in-run target (lines 100-152): a fresh
`RoseArchTarget` whose `command_rc` is 0 and whose sources dict is keyed
by checksum, later bindings of the same checksum silently replacing
earlier ones; `name` carries the renamed source name while `path` still
points at the original location (renaming moves no bytes yet). -/
def mkFreshTarget (spec : TargetSpec) : RoseArchTarget :=
  { name := spec.name,
    compress_scheme := spec.compress_scheme,
    command_format := some spec.command_format,
    command_rc := 0,
    sources := spec.sources.foldl
      (fun m s => dictInsert m s.checksum
        { checksum := s.checksum, orig_name := s.orig_name,
          orig_path := some s.orig_path, name := s.name,
          path := some s.orig_path }) [],
    status := none,
    work_source_path := none }

/-- Change detection for one target (lines 153-157): look up the persisted
snapshot; if it is absent or differs from the fresh target, delete its
rows (a no-op delete when absent); otherwise mark the target `ST_OLD`. -/
def classifyTarget (db : DB) (t : RoseArchTarget) : DB × RoseArchTarget :=
  match db.select t.name with
  | none => (db.delete t.name, t)
  | some old =>
    if targetEq old t then (db, { t with status := some ST_OLD })
    else (db.delete t.name, t)

/-- The target set-up loop (lines 91-158) from the resolver output on:
classify each target in configuration order, threading the store. -/
def setupTargets (db : DB) : List TargetSpec → DB × List RoseArchTarget
  | [] => (db, [])
  | spec :: rest =>
    let p := classifyTarget db (mkFreshTarget spec)
    let q := setupTargets p.1 rest
    (q.1, p.2 :: q.2)

/-- The rename pass (lines 172-184): iff some source was renamed, point
every source path into the per-target staging workspace (the symlinks
themselves are filesystem effects outside the store). -/
def renameSources (work_dir : String) (t : RoseArchTarget) : RoseArchTarget :=
  if t.sources.any (fun kv => kv.2.name != kv.2.orig_name) then
    { t with sources := t.sources.map fun kv =>
        (kv.1, { kv.2 with path := some (work_dir ++ "/" ++ kv.2.name) }) }
  else t

/-- The in-memory result of processing one non-`ST_OLD` target
(lines 168-213): `command_rc` set to 1, sources staged, the external
command run (the oracle `exec` covers compression and the rendered
archive command), the exit code recorded and the status set to `ST_NEW`
or `ST_BAD`. -/
def processedTarget (exec : RoseArchTarget → Int)
    (t : RoseArchTarget) : RoseArchTarget :=
  let t2 := renameSources "work" { t with command_rc := 1 }
  let rc := exec t2
  { t2 with command_rc := rc,
            status := some (if rc == 0 then ST_NEW else ST_BAD) }

/-- Processing of one target (lines 164-214): `ST_OLD` targets are only
reported; any other target is recorded in the store with `command_rc` 1
before its command runs, and the actual exit code is persisted afterwards.
The third component reports the name if and only if an external command
was executed. -/
def processTarget (exec : RoseArchTarget → Int) (db : DB)
    (t : RoseArchTarget) : DB × RoseArchTarget × Option String :=
  if t.status == some ST_OLD then (db, t, none)
  else
    ((db.insert { t with command_rc := 1 }).update_command_rc
       (processedTarget exec t),
     processedTarget exec t, some t.name)

/-- The update loop (lines 163-214): process every target in order,
collecting the names of the targets whose command ran. -/
def updateTargets (exec : RoseArchTarget → Int) (db : DB) :
    List RoseArchTarget → DB × List RoseArchTarget × List String
  | [] => (db, [], [])
  | t :: rest =>
    let p := processTarget exec db t
    let q := updateTargets exec p.1 rest
    (q.1, p.2.1 :: q.2.1,
     match p.2.2 with
     | some n => n :: q.2.2
     | none => q.2.2)

/-- Outcome of one `_run`: final store, final targets, names of targets
whose external command was executed, and the returned value. -/
structure RunResult where
  db : DB
  targets : List RoseArchTarget
  executed : List String
  rc : Nat
deriving DecidableEq

/-- `RoseArchApp._run` (lines 78-216) from the resolver output on: set up
and classify the targets, prune the store down to the current target set,
process each target, and return
`len(targets) - [t.command_rc for t in targets].count(0)`. -/
def runArch (specs : List TargetSpec) (db0 : DB)
    (exec : RoseArchTarget → Int) : RunResult :=
  let s := setupTargets db0 specs
  let db2 := s.1.delete_all s.2
  let u := updateTargets exec db2 s.2
  ⟨u.1, u.2.1, u.2.2,
   u.2.1.length - (u.2.1.filter fun t => t.command_rc == 0).length⟩

/-- Outcome of `RoseArchApp.run`: the returned value (`none` models the
bare `return` of the no-suite path), the store file contents afterwards
(`none` would mean the file is absent), and the processed targets. -/
structure RunOutcome where
  result : Option Nat
  store : Option DB
  targets : List RoseArchTarget
  executed : List String
deriving DecidableEq

/-- `RoseArchApp.run` (lines 59-76): the `RoseArchDAO()` constructor runs
`create()` first, materialising the store file with empty tables when it
is absent (lines 291-294 and 308-324); only then is `ROSE_SUITE_NAME`
consulted, an unset or empty value causing a bare `return` before any
target work. -/
def rose_arch_run (suite_name : Option String) (store : Option DB)
    (specs : List TargetSpec) (exec : RoseArchTarget → Int) : RunOutcome :=
  let db0 : DB := store.getD emptyDB
  if suite_name.getD "" == "" then
    ⟨none, some db0, [], []⟩
  else
    let r := runArch specs db0 exec
    ⟨some r.rc, some r.db, r.targets, r.executed⟩

/-! ## Fingerprint engine (checksum.py) and source resolution (rose_arch.py 107-121) -/

/-- Python exceptions surfaced by the embedded fragments. -/
inductive PyErr
  | unboundLocalError (var : String)
  | keyError (key : String)
  | osErrorENOENT (path : String)
  | valueError
  | typeError
deriving DecidableEq

/-- The value `get_checksum_func` would return: either a hashlib digest of
the named kind applied to the file bytes, or the mtime-and-size policy. -/
inductive ChecksumFunc
  | hash (key : String)
  | mtime_and_size
deriving DecidableEq

/-- The hash constructors of the `hashlib` module (`hasattr(hashlib, ...)`,
checksum.py line 94). -/
def hashlib_names : List String :=
  ["md5", "sha1", "sha224", "sha256", "sha384", "sha512"]

/-- `key.replace("sum", "")` (checksum.py line 94) on the character list:
drop every non-overlapping occurrence of "sum", left to right. -/
def stripSumChars : List Char → List Char
  | 's' :: 'u' :: 'm' :: rest => stripSumChars rest
  | c :: rest => c :: stripSumChars rest
  | [] => []

/-- `key.replace("sum", "")` (checksum.py line 94). -/
def stripSum (k : String) : String := String.mk (stripSumChars k.data)

/-- `get_checksum_func` (checksum.py lines 78-96).  The body assigns
`_DEFAULT_KEY` on line 89 with no `global` declaration, which makes the
name local to the whole function in Python; the read
`if _DEFAULT_KEY is None` on line 88 therefore raises
`UnboundLocalError` whenever `key` is `None`, before any function can be
returned.  With an explicit key the function returns the mtime-and-size
policy for "mtime+size", raises `KeyError` when `hashlib` has no
constructor named `key.replace("sum", "")`, and otherwise returns the
hashlib digest of the original `key`. -/
def get_checksum_func (key : Option String) : Except PyErr ChecksumFunc :=
  match key with
  | none => .error (.unboundLocalError "_DEFAULT_KEY")
  | some k =>
    if k == "mtime+size" then .ok .mtime_and_size
    else if hashlib_names.contains (stripSum k) then .ok (.hash k)
    else .error (.keyError k)

/-- A filesystem snapshot: a file with its content and access mode, or a
directory listing its children in walk order. -/
inductive FSNode
  | file (content : String) (mode : Nat)
  | dir (entries : List (String × FSNode))

/-- `os.path.join` for the relative paths produced by the walk. -/
def pathJoin (a b : String) : String :=
  if a == "" then b else a ++ "/" ++ b

mutual

/-- The body of `get_checksum` (checksum.py lines 59-75) over a resolved
filesystem node: a file yields the single tuple
`("", checksum, mode)`; a directory yields, top-down per visited
directory, the tuple `(relativePath, None, None)` followed by one
`(relativePath, checksum, mode)` tuple per file of that directory, then
the tuples of its subdirectories.  `cf` is the content-digest function in
force. -/
def walkNode (cf : String → String) : FSNode → String →
    List (String × Option String × Option Nat)
  | .file c m, rel => [(rel, some (cf c), some m)]
  | .dir es, rel => (rel, none, none) :: walkFiles cf es rel ++ walkSubdirs cf es rel

/-- The file tuples of one visited directory (the `filenames` loop,
checksum.py lines 69-74). -/
def walkFiles (cf : String → String) :
    List (String × FSNode) → String → List (String × Option String × Option Nat)
  | [], _ => []
  | (n, .file c m) :: rest, rel =>
    (pathJoin rel n, some (cf c), some m) :: walkFiles cf rest rel
  | (_, .dir _) :: rest, rel => walkFiles cf rest rel

/-- The recursive descent of `os.walk` into the subdirectories. -/
def walkSubdirs (cf : String → String) :
    List (String × FSNode) → String → List (String × Option String × Option Nat)
  | [], _ => []
  | (_, .file _ _) :: rest, rel => walkSubdirs cf rest rel
  | (n, .dir es) :: rest, rel =>
    walkNode cf (.dir es) (pathJoin rel n) ++ walkSubdirs cf rest rel

end

/-- `get_checksum` (checksum.py lines 34-75).  `node?` is the resolution
of `name` against the filesystem snapshot (`none`: the path does not
exist, raising `OSError(ENOENT)`).  When `checksum_func` is not supplied,
line 57 calls `get_checksum_func()`, which raises `UnboundLocalError`
(see `get_checksum_func`); that exception propagates to the caller. -/
def get_checksum (name : String) (node? : Option FSNode)
    (checksum_func : Option (String → String)) :
    Except PyErr (List (String × Option String × Option Nat)) :=
  match node? with
  | none => .error (.osErrorENOENT name)
  | some node =>
    match checksum_func with
    | some cf => .ok (walkNode cf node "")
    | none =>
      match get_checksum_func none with
      | .error e => .error e
      -- unreachable: `get_checksum_func none` always raises (see its
      -- definition), so the digest below is never consulted
      | .ok _ => .ok (walkNode (fun c => c) node "")

/-- The source-resolution loop body of `RoseArchApp._run` for one matched
`path` (rose_arch.py lines 110-121).  The loop header on line 111,
`for p, checksum in get_checksum(path)`, unpacks each 3-element tuple
`(path, checksum, mode)` returned by `get_checksum` into two names, which
raises `ValueError` on the first element; and rose_arch passes no
`checksum_func`, so `get_checksum` itself already raises
`UnboundLocalError` first (see `get_checksum`).  `source_pfx` models
`source_prefix`. -/
def addMatchedPath (checksum_func : Option (String → String))
    (_source_pfx path : String) (node? : Option FSNode)
    (sources : List (String × RoseArchSource)) :
    Except PyErr (List (String × RoseArchSource)) :=
  match get_checksum path node? checksum_func with
  | .error e => .error e
  | .ok [] => .ok sources
  | .ok (_ :: _) => .error .valueError

/-- The same loop under the two-element interface the call was written
against, reading each tuple as `(p, checksum)` and dropping the mode.
Directory entries (`checksum is None`) are skipped (line 112-113).  For a
file entry with a non-empty relative path, line 118 reads
`os,path.join(path, p)`: the comma makes the argument list pass `os` and
`path.join(path, p)`, and evaluating `path.join(path, p)` applies
`str.join` of the string `path` to two arguments, raising `TypeError`
before anything is stored.  For the `("", checksum)` entry of a plain
file, lines 120-121 store `RoseArchSource(checksum, name, path)` under
the checksum key. -/
def addMatchedPathPairs (cf : String → String) (source_pfx path : String)
    (node : FSNode) (sources : List (String × RoseArchSource)) :
    Except PyErr (List (String × RoseArchSource)) :=
  let name := path.drop source_pfx.length
  (walkNode cf node "").foldlM
    (fun srcs e =>
      match e with
      | (_, none, _) => pure srcs
      | (p, some checksum, _) =>
        if p != "" then throw PyErr.typeError
        else pure (dictInsert srcs checksum
          (RoseArchSource.init checksum name (some path))))
    sources

/-- Modelled from the spec: the behaviour sections 4.1-4.2 describe for
the same loop, which line 118 would implement were the comma a dot: for
each descendant file entry `(p, checksum)` of a directory, store
`RoseArchSource(checksum, os.path.join(name, p), os.path.join(path, p))`
under the checksum key; for a plain file store
`RoseArchSource(checksum, name, path)`; skip directory entries. -/
def addMatchedPathIntended (cf : String → String) (source_pfx path : String)
    (node : FSNode) (sources : List (String × RoseArchSource)) :
    List (String × RoseArchSource) :=
  let name := path.drop source_pfx.length
  (walkNode cf node "").foldl
    (fun srcs e =>
      match e with
      | (_, none, _) => srcs
      | (p, some checksum, _) =>
        if p != "" then
          dictInsert srcs checksum
            (RoseArchSource.init checksum (pathJoin name p)
              (some (pathJoin path p)))
        else
          dictInsert srcs checksum
            (RoseArchSource.init checksum name (some path)))
    sources

/-! ## Configuration value resolution (RoseArchApp._get_conf, lines 218-229) -/

/-- A templated configuration value: literal pieces interleaved with
environment-variable references. -/
inductive ValTok
  | lit (s : String)
  | ref (var : String)
deriving DecidableEq

/-- The literal text of a template (used for Python truthiness and for
returning an unprocessed falsy value as-is). -/
def renderLiteral : List ValTok → String
  | [] => ""
  | .lit s :: rest => s ++ renderLiteral rest
  | .ref v :: rest => "$" ++ v ++ renderLiteral rest

/-- Modelled from the spec: `env_var_process` (rose.env, not under src/)
substitutes the referenced environment variables into a templated value
and raises `UnboundEnvironmentVariableError` naming the first referenced
variable that is unset. -/
def env_var_process (env : List (String × String)) :
    List ValTok → Except String String
  | [] => .ok ""
  | .lit s :: rest => (env_var_process env rest).map (fun r => s ++ r)
  | .ref v :: rest =>
    match dictLookup env v with
    | some s => (env_var_process env rest).map (fun r => s ++ r)
    | none => .error v

/-- The errors `_get_conf` can terminate with. -/
inductive ConfErr
  | configValueError (keys : List String) (value : Option String)
  | nameError (var : String)
deriving DecidableEq

/-- `RoseArchApp._get_conf` (lines 218-229): resolve `key` against the
target section with the application section as fallback, raise
`ConfigValueError([SECTION, key], None, ...)` when a compulsory value is
falsy, and pass a truthy value through `env_var_process`.  When the
processing raises `UnboundEnvironmentVariableError`, line 228 executes
`raise ConfigValueError(keys, value, e)`; the name `keys` is not defined
anywhere in `_get_conf`, so Python raises `NameError` at that point
instead of the intended `ConfigValueError`. -/
def get_conf (sect : String) (env : List (String × String))
    (t_node r_node : String → Option (List ValTok)) (key : String)
    (compulsory : Bool) (default : Option (List ValTok)) :
    Except ConfErr (Option String) :=
  let value : Option (List ValTok) :=
    match t_node key with
    | some v => some v
    | none =>
      match r_node key with
      | some v => some v
      | none => default
  let truthy : Bool :=
    match value with
    | none => false
    | some v => renderLiteral v != ""
  if compulsory && !truthy then
    .error (.configValueError [sect, key] none)
  else if truthy then
    match env_var_process env (value.getD []) with
    | .ok s => .ok (some s)
    | .error _ => .error (.nameError "keys")
  else
    .ok (value.map renderLiteral)

/-! ## Store lemmas -/

/-- The `targets` rows of one target name, in table order. -/
def tRows (db : DB) (n : String) : List TargetRow :=
  db.targets.filter fun r => r.target_name == n

/-- The `sources` rows of one target name, in table order. -/
def sRows (db : DB) (n : String) : List SourceRow :=
  db.sources.filter fun r => r.target_name == n

/-- The target `RoseArchDAO.select` rebuilds from the rows `insert` wrote
for `t` (compare lines 351-363 with lines 365-392). -/
def reconstructOf (t : RoseArchTarget) : RoseArchTarget :=
  { name := t.name,
    compress_scheme := t.compress_scheme,
    command_format := t.command_format,
    command_rc := t.command_rc,
    sources := (sourceRowsOf t).foldl
      (fun m r => dictInsert m r.checksum
        (RoseArchSource.init r.checksum r.source_name none)) [],
    status := none,
    work_source_path := none }

/-- Well-formedness of a sources dict as the resolver builds it: the keys
are pairwise distinct and every source is stored under its own checksum. -/
def sourcesWF (t : RoseArchTarget) : Prop :=
  (t.sources.map Prod.fst).Nodup ∧ ∀ kv ∈ t.sources, kv.2.checksum = kv.1

/-! ## Concrete instances used by witnesses and counterexamples -/

/-- A demonstration content-digest function (any injective digest works). -/
def exCf (c : String) : String := "h(" ++ c ++ ")"

/-- A matched directory holding one file. -/
def exDir : FSNode := .dir [("a.txt", .file "x" 420)]

/-- A plain existing file. -/
def exFile : FSNode := .file "hello" 420

/-- A target-section configuration with a templated compulsory value. -/
def exTNode (k : String) : Option (List ValTok) :=
  if k == "command-format" then some [ValTok.ref "FOO"] else none

/-- An application-section configuration with no value for any key. -/
def exRNode (_ : String) : Option (List ValTok) := none

/-- A one-target, one-source resolver output. -/
def exSpec : TargetSpec := ⟨"t", none, "f", [⟨"c", "a", "a", "a"⟩]⟩

/-- A store already holding one target. -/
def exDB9 : DB := ⟨[⟨"t", none, some "f", 0⟩], [⟨"t", "a", "c"⟩]⟩

/-- A store holding a current target and a stale one. -/
def exDB8 : DB :=
  ⟨[⟨"keep", some "tar", some "f", 0⟩, ⟨"stale", none, some "g", 1⟩],
   [⟨"keep", "a", "c1"⟩, ⟨"stale", "b", "c2"⟩]⟩

/-- The current target kept by the prune. -/
def exKeep : RoseArchTarget := { name := "keep" }

/-- A store with rows of an unrelated target only. -/
def exDB7 : DB := ⟨[⟨"other", none, some "f", 0⟩], [⟨"other", "o", "c0"⟩]⟩

/-- A two-source target to round-trip through the store. -/
def exT7 : RoseArchTarget :=
  { name := "t", compress_scheme := some "tar", command_format := some "fmt",
    command_rc := 3,
    sources := [("c1", ⟨"c1", "a", some "a", "a2", some "w/a2"⟩),
                ("c2", ⟨"c2", "b", some "b", "b", some "b"⟩)],
    status := some "+", work_source_path := none }

/-- Agreement of the store with one resolved target: the persisted
snapshot exists and equals the fresh target (the `ST_OLD` condition of
lines 153-157). -/
def dbAgrees (db : DB) (spec : TargetSpec) : Bool :=
  match db.select spec.name with
  | some old => targetEq old (mkFreshTarget spec)
  | none => false

/-- The classification outcome of one resolved target against the store
at the start of the run (lines 153-158). -/
def classifiedTarget (db0 : DB) (s : TargetSpec) : RoseArchTarget :=
  if dbAgrees db0 s then { mkFreshTarget s with status := some ST_OLD }
  else mkFreshTarget s

/-- A persisted snapshot recording a failed command. -/
def exDB10 : DB := ⟨[⟨"t", none, some "f", 1⟩], [⟨"t", "a", "c"⟩]⟩

/-- The target `exDB10.select` reconstructs for the name "t". -/
def exOld10 : RoseArchTarget :=
  { name := "t", compress_scheme := none, command_format := some "f",
    command_rc := 1, sources := [("c", RoseArchSource.init "c" "a" none)],
    status := none, work_source_path := none }


theorem filter_and_of_imp {α : Type} (p q : α → Bool) (l : List α)
    (h : ∀ a, p a = true → q a = true) :
    (l.filter fun a => p a && q a) = l.filter p := by
  induction l with
  | nil => rfl
  | cons a t ih =>
    simp only [List.filter_cons]
    cases hpa : p a with
    | true => rw [h a hpa]; simp [ih]
    | false => simp [ih]

theorem filter_and_neg_self {α : Type} (p : α → Bool) (l : List α) :
    (l.filter fun a => p a && !(p a)) = [] := by
  induction l with
  | nil => rfl
  | cons a t ih => simp only [List.filter_cons]; cases hpa : p a <;> simp [ih]

theorem DB.select_eq_of_rows {db db' : DB} {n : String}
    (ht : tRows db n = tRows db' n) (hs : sRows db n = sRows db' n) :
    db.select n = db'.select n := by
  simp only [tRows, sRows] at ht hs
  unfold DB.select
  rw [← List.filter_head? (fun r => r.target_name == n) db.targets,
    ← List.filter_head? (fun r => r.target_name == n) db'.targets, ht, hs]

theorem DB.select_none_of_tRows {db : DB} {n : String} (h : tRows db n = []) :
    db.select n = none := by
  simp only [tRows] at h
  unfold DB.select
  rw [← List.filter_head? (fun r => r.target_name == n) db.targets, h]
  rfl

theorem tRows_delete_self (db : DB) (n : String) : tRows (db.delete n) n = [] := by
  simp only [tRows, DB.delete, List.filter_filter]
  have hx := filter_and_neg_self (fun r : TargetRow => r.target_name == n) db.targets
  simp only [bne] at hx ⊢
  exact hx

theorem sRows_delete_self (db : DB) (n : String) : sRows (db.delete n) n = [] := by
  simp only [sRows, DB.delete, List.filter_filter]
  have hx := filter_and_neg_self (fun r : SourceRow => r.target_name == n) db.sources
  simp only [bne] at hx ⊢
  exact hx

theorem tRows_delete_other (db : DB) {m n : String} (h : m ≠ n) :
    tRows (db.delete m) n = tRows db n := by
  simp only [tRows, DB.delete, List.filter_filter]
  exact filter_and_of_imp _ _ _ fun r hr => by
    simp only [beq_iff_eq] at hr
    simp [bne, hr, h.symm]

theorem sRows_delete_other (db : DB) {m n : String} (h : m ≠ n) :
    sRows (db.delete m) n = sRows db n := by
  simp only [sRows, DB.delete, List.filter_filter]
  exact filter_and_of_imp _ _ _ fun r hr => by
    simp only [beq_iff_eq] at hr
    simp [bne, hr, h.symm]

theorem tRows_insert_self (db : DB) (t : RoseArchTarget) :
    tRows (db.insert t) t.name = tRows db t.name ++ [targetRowOf t] := by
  simp [tRows, DB.insert, List.filter_append, targetRowOf]

theorem sRows_insert_self (db : DB) (t : RoseArchTarget) :
    sRows (db.insert t) t.name = sRows db t.name ++ sourceRowsOf t := by
  simp only [sRows, DB.insert, List.filter_append]
  congr 1
  rw [List.filter_eq_self]
  intro r hr
  simp only [sourceRowsOf, List.mem_map] at hr
  obtain ⟨kv, _, rfl⟩ := hr
  simp

theorem tRows_insert_other (db : DB) {t : RoseArchTarget} {n : String}
    (h : t.name ≠ n) : tRows (db.insert t) n = tRows db n := by
  simp only [tRows, DB.insert, List.filter_append]
  have : List.filter (fun r => r.target_name == n) [targetRowOf t] = [] := by
    simp [targetRowOf, h]
  rw [this, List.append_nil]

theorem sRows_insert_other (db : DB) {t : RoseArchTarget} {n : String}
    (h : t.name ≠ n) : sRows (db.insert t) n = sRows db n := by
  simp only [sRows, DB.insert, List.filter_append]
  have : List.filter (fun r => r.target_name == n) (sourceRowsOf t) = [] := by
    rw [List.filter_eq_nil_iff]
    intro r hr
    simp only [sourceRowsOf, List.mem_map] at hr
    obtain ⟨kv, _, rfl⟩ := hr
    simp [h]
  rw [this, List.append_nil]

theorem tRows_update_self (db : DB) (t : RoseArchTarget) :
    tRows (db.update_command_rc t) t.name =
      (tRows db t.name).map fun r => { r with command_rc := t.command_rc } := by
  simp only [tRows, DB.update_command_rc, List.filter_map]
  have hc : (fun r : TargetRow => r.target_name == t.name) ∘
      (fun r : TargetRow =>
        if r.target_name == t.name then { r with command_rc := t.command_rc } else r) =
      fun r : TargetRow => r.target_name == t.name := by
    funext r
    by_cases hr : r.target_name = t.name <;> simp [hr]
  rw [hc]
  refine List.map_congr_left fun r hr => ?_
  simp only [List.mem_filter, beq_iff_eq] at hr
  simp [hr.2]

theorem tRows_update_other (db : DB) {t : RoseArchTarget} {n : String}
    (h : t.name ≠ n) : tRows (db.update_command_rc t) n = tRows db n := by
  simp only [tRows, DB.update_command_rc, List.filter_map]
  have hc : (fun r : TargetRow => r.target_name == n) ∘
      (fun r : TargetRow =>
        if r.target_name == t.name then { r with command_rc := t.command_rc } else r) =
      fun r : TargetRow => r.target_name == n := by
    funext r
    by_cases hr : r.target_name = t.name <;> simp [hr]
  rw [hc]
  refine (List.map_congr_left fun r hr => ?_).trans (List.map_id _)
  simp only [List.mem_filter, beq_iff_eq] at hr
  have : r.target_name ≠ t.name := by rw [hr.2]; exact fun hx => h hx.symm
  simp [this]

theorem sRows_update (db : DB) (t : RoseArchTarget) (n : String) :
    sRows (db.update_command_rc t) n = sRows db n := rfl

theorem tRows_delete_all_kept (db : DB) {fts : List RoseArchTarget} {n : String}
    (h : (fts.any fun t => t.name == n) = true) :
    tRows (db.delete_all fts) n = tRows db n := by
  simp only [tRows, DB.delete_all, List.filter_filter]
  exact filter_and_of_imp _ _ _ fun r hr => by
    simp only [beq_iff_eq] at hr
    rw [hr]
    exact h

theorem sRows_delete_all_kept (db : DB) {fts : List RoseArchTarget} {n : String}
    (h : (fts.any fun t => t.name == n) = true) :
    sRows (db.delete_all fts) n = sRows db n := by
  simp only [sRows, DB.delete_all, List.filter_filter]
  exact filter_and_of_imp _ _ _ fun r hr => by
    simp only [beq_iff_eq] at hr
    rw [hr]
    exact h

theorem tRows_delete_all_dropped (db : DB) {fts : List RoseArchTarget} {n : String}
    (h : (fts.all fun t => t.name != n) = true) :
    tRows (db.delete_all fts) n = [] := by
  simp only [tRows, DB.delete_all, List.filter_filter]
  rw [List.filter_eq_nil_iff]
  intro r _
  simp only [Bool.and_eq_true, beq_iff_eq, List.any_eq_true, not_and, not_exists]
  intro hn t htm htn
  have hx := (List.all_eq_true.mp h) t htm
  simp only [bne_iff_ne, ne_eq] at hx
  exact hx (by rw [htn, hn])

theorem sRows_delete_all_dropped (db : DB) {fts : List RoseArchTarget} {n : String}
    (h : (fts.all fun t => t.name != n) = true) :
    sRows (db.delete_all fts) n = [] := by
  simp only [sRows, DB.delete_all, List.filter_filter]
  rw [List.filter_eq_nil_iff]
  intro r _
  simp only [Bool.and_eq_true, beq_iff_eq, List.any_eq_true, not_and, not_exists]
  intro hn t htm htn
  have hx := (List.all_eq_true.mp h) t htm
  simp only [bne_iff_ne, ne_eq] at hx
  exact hx (by rw [htn, hn])

/-! ## Dict lemmas and reconstruction of an inserted target -/

theorem dictInsert_of_not_mem {α : Type} {m : List (String × α)} {k : String}
    (h : ∀ kv ∈ m, kv.1 ≠ k) (v : α) : dictInsert m k v = m ++ [(k, v)] := by
  induction m with
  | nil => rfl
  | cons a rest ih =>
    have ha : a.1 ≠ k := h a (List.mem_cons_self ..)
    obtain ⟨a1, a2⟩ := a
    simp only [dictInsert, if_neg ha, List.cons_append]
    rw [ih fun kv hkv => h kv (List.mem_cons_of_mem _ hkv)]

theorem foldl_dictInsert_nodup {α : Type} (g : String × α → α) :
    ∀ (l acc : List (String × α)),
    (l.map Prod.fst).Nodup →
    (∀ k ∈ l.map Prod.fst, k ∉ acc.map Prod.fst) →
    (l.foldl (fun m kv => dictInsert m kv.1 (g kv)) acc) =
      acc ++ l.map fun kv => (kv.1, g kv) := by
  intro l
  induction l with
  | nil => intro acc _ _; simp
  | cons a rest ih =>
    intro acc h1 h2
    simp only [List.map_cons, List.nodup_cons] at h1
    simp only [List.foldl_cons]
    have hfresh : ∀ kv ∈ acc, kv.1 ≠ a.1 := by
      intro kv hkv heq
      exact h2 a.1 (by simp) (heq ▸ List.mem_map_of_mem Prod.fst hkv)
    have h2' : ∀ k ∈ rest.map Prod.fst, k ∉ (acc ++ [(a.1, g a)]).map Prod.fst := by
      intro k hk
      simp only [List.map_append, List.map_cons, List.map_nil, List.mem_append,
        List.mem_cons, List.not_mem_nil, or_false, not_or]
      refine ⟨h2 k (by simp only [List.map_cons, List.mem_cons]; exact Or.inr hk), ?_⟩
      intro heq
      exact h1.1 (heq ▸ hk)
    rw [dictInsert_of_not_mem hfresh (g a), ih (acc ++ [(a.1, g a)]) h1.2 h2']
    simp

theorem dictLookup_eq_of_mem_nodup {α : Type} :
    ∀ {l : List (String × α)}, (l.map Prod.fst).Nodup →
    ∀ {k : String} {v : α}, (k, v) ∈ l → dictLookup l k = some v := by
  intro l
  induction l with
  | nil => intro _ k v hm; cases hm
  | cons a rest ih =>
    intro hnd k v hm
    obtain ⟨a1, a2⟩ := a
    simp only [List.map_cons, List.nodup_cons] at hnd
    rcases List.mem_cons.mp hm with he | ht
    · obtain ⟨h1, h2⟩ := Prod.mk.injEq .. ▸ he.symm
      simp [dictLookup, h1, h2]
    · have hne : a1 ≠ k := by
        intro heq
        exact hnd.1 (heq ▸ List.mem_map_of_mem Prod.fst ht)
      simp only [dictLookup, if_neg hne]
      exact ih hnd.2 ht

theorem dictLookup_isSome_of_mem {α : Type} :
    ∀ {l : List (String × α)} {k : String} {v : α},
    (k, v) ∈ l → (dictLookup l k).isSome = true := by
  intro l
  induction l with
  | nil => intro k v hm; cases hm
  | cons a rest ih =>
    intro k v hm
    obtain ⟨a1, a2⟩ := a
    by_cases he : a1 = k
    · simp [dictLookup, he]
    · simp only [dictLookup, if_neg he]
      rcases List.mem_cons.mp hm with hh | ht
      · cases hh; simp at he
      · exact ih ht


theorem reconstruct_sources (t : RoseArchTarget)
    (hnd : (t.sources.map Prod.fst).Nodup) :
    (reconstructOf t).sources =
      t.sources.map fun kv => (kv.1, RoseArchSource.init kv.1 kv.2.name none) := by
  simp only [reconstructOf, sourceRowsOf, List.foldl_map]
  have := foldl_dictInsert_nodup
    (fun kv : String × RoseArchSource => RoseArchSource.init kv.1 kv.2.name none)
    t.sources [] hnd (by simp)
  simp only [List.nil_append] at this
  exact this

theorem targetEq_reconstruct (t : RoseArchTarget) (hwf : sourcesWF t) :
    targetEq (reconstructOf t) t = true := by
  obtain ⟨hnd, hck⟩ := hwf
  simp only [targetEq, reconstructOf, Bool.and_eq_true, beq_self_eq_true, true_and]
  have hsrc := reconstruct_sources t hnd
  simp only [reconstructOf] at hsrc
  rw [hsrc]
  simp only [sourcesEq, Bool.and_eq_true, List.all_eq_true]
  constructor
  · intro kv hkv
    simp only [List.mem_map] at hkv
    obtain ⟨kw, hkw, rfl⟩ := hkv
    rw [dictLookup_eq_of_mem_nodup hnd (by
      have : (kw.1, kw.2) ∈ t.sources := hkw
      exact this)]
    simp [sourceEq, RoseArchSource.init, hck kw hkw]
  · intro kv hkv
    apply dictLookup_isSome_of_mem (v := RoseArchSource.init kv.1 kv.2.name none)
    exact List.mem_map_of_mem _ hkv

theorem select_insert_clean (db : DB) (t : RoseArchTarget)
    (ht : tRows db t.name = []) (hs : sRows db t.name = []) :
    (db.insert t).select t.name = some (reconstructOf t) := by
  unfold DB.select
  rw [← List.filter_head? (fun r => r.target_name == t.name) (db.insert t).targets]
  have h1 : tRows (db.insert t) t.name = [targetRowOf t] := by
    rw [tRows_insert_self, ht]; rfl
  have h2 : sRows (db.insert t) t.name = sourceRowsOf t := by
    rw [sRows_insert_self, hs]; rfl
  simp only [tRows] at h1
  simp only [sRows] at h2
  rw [h1, h2]
  rfl


/-! ## Claim theorems -/

/-- C6: two targets compare equal exactly when they agree on name,
compression scheme, command format, command exit code and sources (as
Python dict equality over source equality); two sources compare equal
exactly when they agree on checksum and name; and rewriting the transient
fields (a target's status and staging path, a source's orig_name,
orig_path and path) on either side never changes either comparison. -/
theorem C6_equality_semantics :
    (∀ a b : RoseArchTarget,
      targetEq a b = true ↔
        (a.name = b.name ∧ a.compress_scheme = b.compress_scheme ∧
         a.command_format = b.command_format ∧ a.command_rc = b.command_rc ∧
         sourcesEq a.sources b.sources = true)) ∧
    (∀ s o : RoseArchSource,
      sourceEq s o = true ↔ (s.checksum = o.checksum ∧ s.name = o.name)) ∧
    (∀ a b : RoseArchTarget, ∀ st1 st2 w1 w2 : Option String,
      targetEq { a with status := st1, work_source_path := w1 }
        { b with status := st2, work_source_path := w2 } = targetEq a b) ∧
    (∀ s o : RoseArchSource, ∀ n1 n2 : String, ∀ p1 p2 q1 q2 : Option String,
      sourceEq { s with orig_name := n1, orig_path := p1, path := q1 }
        { o with orig_name := n2, orig_path := p2, path := q2 } = sourceEq s o) := by
  refine ⟨?_, ?_, ?_, ?_⟩
  · intro a b
    simp [targetEq, Bool.and_eq_true, beq_iff_eq, and_assoc]
  · intro s o
    simp [sourceEq, Bool.and_eq_true, beq_iff_eq]
  · intro a b st1 st2 w1 w2
    rfl
  · intro s o n1 n2 p1 p2 q1 q2
    rfl

/-- C3: with no checksum key specified the code is meant to return the
default MD5 content digest (and does return `hash "md5"` when the key is
given explicitly), but `get_checksum_func` reads the module variable
`_DEFAULT_KEY` after assigning it locally without a `global` declaration,
so the `key is None` path raises `UnboundLocalError` instead of returning
any function, and `get_checksum` on an existing file with no explicit
checksum function fails the same way. -/
theorem C3_default_key_unbound_local :
    get_checksum_func none = .error (.unboundLocalError "_DEFAULT_KEY") ∧
    get_checksum "f.txt" (some exFile) none =
      .error (.unboundLocalError "_DEFAULT_KEY") ∧
    get_checksum_func (some "md5") = .ok (.hash "md5") :=
  ⟨rfl, rfl, rfl⟩

/-- C2: resolving a matched directory holding one file never stores a
source entry: the call raises `UnboundLocalError` inside `get_checksum`
(no checksum function is passed, see C3); under a working checksum
function the loop header still unpacks 3-element tuples into two names
(`ValueError`); and under the two-element interface the call was written
against, the directory branch evaluates `os,path.join(path, p)` and
raises `TypeError`.  The behaviour the spec describes would store the
entry keyed by the file digest with name and path joined from the
relative path, as `addMatchedPathIntended` shows. -/
theorem C2_directory_resolution_raises :
    addMatchedPath none "" "d" (some exDir) [] =
      .error (.unboundLocalError "_DEFAULT_KEY") ∧
    addMatchedPath (some exCf) "" "d" (some exDir) [] = .error .valueError ∧
    addMatchedPathPairs exCf "" "d" exDir [] = .error .typeError ∧
    addMatchedPathIntended exCf "" "d" exDir [] =
      [("h(x)", RoseArchSource.init "h(x)" "d/a.txt" (some "d/a.txt"))] :=
  ⟨rfl, rfl, rfl, rfl⟩

/-- C4: when a compulsory templated value holds an unresolved
environment-variable reference, `env_var_process` raises the unbound
variable error, but the `except` clause of `_get_conf` evaluates
`ConfigValueError(keys, value, e)` with the undefined name `keys`, so the
run is aborted by `NameError`, not by a `ConfigValueError` identifying
the key and value. -/
theorem C4_unbound_env_raises_name_error :
    env_var_process [] [ValTok.ref "FOO"] = .error "FOO" ∧
    get_conf "arch" [] exTNode exRNode "command-format" true none =
      .error (.nameError "keys") :=
  ⟨rfl, rfl⟩

/-- C9 counterexample: a run with the suite variable unset, started while
the store file is absent (`store = none`), leaves the store file existing
afterwards: the `RoseArchDAO()` constructor creates it before the suite
check, so the external state is not unchanged. -/
theorem C9_counterexample :
    (rose_arch_run none none [] (fun _ => 0)).store = some emptyDB ∧
    (rose_arch_run none none [] (fun _ => 0)).store.isSome = true :=
  ⟨rfl, rfl⟩

/-- C9 (amended): with `ROSE_SUITE_NAME` unset or empty the run returns
immediately (the bare `return`, modelled as result `none`), processes no
target and executes no command; the store contents are unchanged when the
store file exists, and the file is created with empty tables when it is
absent. -/
theorem C9_no_suite_noop (suite : Option String) (store : Option DB)
    (specs : List TargetSpec) (exec : RoseArchTarget → Int)
    (h : suite = none ∨ suite = some "") :
    rose_arch_run suite store specs exec =
      ⟨none, some (store.getD emptyDB), [], []⟩ := by
  rcases h with rfl | rfl <;> rfl

/-- C9 witness: the amended theorem applied to an empty suite name over an
existing store. -/
theorem C9_no_suite_noop_witness :
    rose_arch_run (some "") (some exDB9) [] (fun _ => 0) =
      ⟨none, some exDB9, [], []⟩ :=
  C9_no_suite_noop (some "") (some exDB9) [] (fun _ => 0) (Or.inr rfl)

/-- C8: after `delete_all` with the current target list, `select` returns
none for every name not among the current names, and the rows of every
current target, in both tables, are exactly as before. -/
theorem C8_pruning (db : DB) (fts : List RoseArchTarget) :
    (∀ n : String, (fts.all fun t => t.name != n) = true →
      (db.delete_all fts).select n = none) ∧
    (∀ t ∈ fts,
      tRows (db.delete_all fts) t.name = tRows db t.name ∧
      sRows (db.delete_all fts) t.name = sRows db t.name) := by
  constructor
  · intro n h
    exact DB.select_none_of_tRows (tRows_delete_all_dropped db h)
  · intro t htm
    have hany : (fts.any fun u => u.name == t.name) = true :=
      List.any_eq_true.mpr ⟨t, htm, by simp⟩
    exact ⟨tRows_delete_all_kept db hany, sRows_delete_all_kept db hany⟩

/-- C8 witness: pruning a store holding a kept and a stale target. -/
theorem C8_pruning_witness :
    (exDB8.delete_all [exKeep]).select "stale" = none ∧
    tRows (exDB8.delete_all [exKeep]) "keep" = tRows exDB8 "keep" ∧
    sRows (exDB8.delete_all [exKeep]) "keep" = sRows exDB8 "keep" :=
  ⟨(C8_pruning exDB8 [exKeep]).1 "stale" (by decide),
   ((C8_pruning exDB8 [exKeep]).2 exKeep (by decide)).1,
   ((C8_pruning exDB8 [exKeep]).2 exKeep (by decide)).2⟩

/-- C7: `select` returns none when the store holds no row for the name,
and after inserting a target into a store holding no rows for its name,
`select` reconstructs a target equal to it under the defined target
equality (given that the sources dict is well formed: distinct keys, each
source stored under its own checksum, as the resolver builds it). -/
theorem C7_round_trip (db : DB) (t : RoseArchTarget)
    (ht : tRows db t.name = []) (hs : sRows db t.name = [])
    (hnd : (t.sources.map Prod.fst).Nodup)
    (hck : ∀ kv ∈ t.sources, kv.2.checksum = kv.1) :
    db.select t.name = none ∧
    ∃ t', (db.insert t).select t.name = some t' ∧ targetEq t' t = true :=
  ⟨DB.select_none_of_tRows ht,
   reconstructOf t, select_insert_clean db t ht hs,
   targetEq_reconstruct t ⟨hnd, hck⟩⟩

/-- C7 witness: the round trip on a two-source target over a store that
only knows an unrelated target. -/
theorem C7_round_trip_witness :
    exDB7.select exT7.name = none ∧
    ∃ t', (exDB7.insert exT7).select exT7.name = some t' ∧
      targetEq t' exT7 = true :=
  C7_round_trip exDB7 exT7 (by decide) (by decide) (by decide) (by decide)

/-- C1 counterexample: one target whose archive command exits 1; the first
run completes (returning failure count 1), yet the second run with
identical resolver output classifies the target `ST_BAD`, not `ST_OLD`,
and executes its command again, refuting the unqualified idempotence
claim. -/
theorem C1_counterexample :
    (runArch [exSpec] emptyDB (fun _ => 1)).rc = 1 ∧
    (runArch [exSpec] (runArch [exSpec] emptyDB (fun _ => 1)).db
      (fun _ => 1)).executed = ["t"] ∧
    ((runArch [exSpec] (runArch [exSpec] emptyDB (fun _ => 1)).db
      (fun _ => 1)).targets.all fun t => t.status == some ST_OLD) = false :=
  ⟨rfl, rfl, rfl⟩

/-! ## Pipeline lemmas -/

theorem mkFresh_name (s : TargetSpec) : (mkFreshTarget s).name = s.name := rfl

theorem renameSources_name (w : String) (t : RoseArchTarget) :
    (renameSources w t).name = t.name := by
  unfold renameSources
  split <;> rfl

theorem renameSources_compress (w : String) (t : RoseArchTarget) :
    (renameSources w t).compress_scheme = t.compress_scheme := by
  unfold renameSources
  split <;> rfl

theorem renameSources_format (w : String) (t : RoseArchTarget) :
    (renameSources w t).command_format = t.command_format := by
  unfold renameSources
  split <;> rfl

theorem classify_snd_name (db : DB) (t : RoseArchTarget) :
    (classifyTarget db t).2.name = t.name := by
  unfold classifyTarget
  cases db.select t.name with
  | none => rfl
  | some old =>
    by_cases he : targetEq old t = true <;> simp [he]

theorem targetEq_rc {a b : RoseArchTarget} (h : targetEq a b = true) :
    a.command_rc = b.command_rc := by
  simp only [targetEq, Bool.and_eq_true, beq_iff_eq] at h
  exact h.1.2

theorem mem_keys_dictInsert {α : Type} (k : String) (v : α) (x : String) :
    ∀ m : List (String × α),
    x ∈ (dictInsert m k v).map Prod.fst ↔ x ∈ m.map Prod.fst ∨ x = k := by
  intro m
  induction m with
  | nil => simp [dictInsert]
  | cons a rest ih =>
    obtain ⟨a1, a2⟩ := a
    simp only [dictInsert]
    by_cases he : a1 = k
    · rw [if_pos he]
      subst he
      simp only [List.map_cons, List.mem_cons]
      tauto
    · rw [if_neg he]
      simp only [List.map_cons, List.mem_cons, ih]
      tauto

theorem dictInsert_keys_nodup {α : Type} (k : String) (v : α) :
    ∀ m : List (String × α), (m.map Prod.fst).Nodup →
    ((dictInsert m k v).map Prod.fst).Nodup := by
  intro m
  induction m with
  | nil => intro _; simp [dictInsert]
  | cons a rest ih =>
    obtain ⟨a1, a2⟩ := a
    intro hnd
    simp only [List.map_cons, List.nodup_cons] at hnd
    simp only [dictInsert]
    by_cases he : a1 = k
    · rw [if_pos he]
      subst he
      simp only [List.map_cons, List.nodup_cons]
      exact hnd
    · rw [if_neg he]
      simp only [List.map_cons, List.nodup_cons]
      refine ⟨?_, ih hnd.2⟩
      rw [mem_keys_dictInsert]
      rintro (hx | rfl)
      · exact hnd.1 hx
      · exact he rfl

theorem dictInsert_values {α : Type} (P : String × α → Prop) (k : String) (v : α) :
    ∀ m : List (String × α), (∀ kv ∈ m, P kv) → P (k, v) →
    ∀ kv ∈ dictInsert m k v, P kv := by
  intro m
  induction m with
  | nil =>
    intro _ hv kv hkv
    simp only [dictInsert, List.mem_singleton] at hkv
    exact hkv ▸ hv
  | cons a rest ih =>
    obtain ⟨a1, a2⟩ := a
    intro hm hv kv hkv
    simp only [dictInsert] at hkv
    by_cases he : a1 = k
    · rw [if_pos he] at hkv
      rcases List.mem_cons.mp hkv with rfl | hx
      · exact hv
      · exact hm kv (List.mem_cons_of_mem _ hx)
    · rw [if_neg he] at hkv
      rcases List.mem_cons.mp hkv with rfl | hx
      · exact hm (a1, a2) (List.mem_cons_self ..)
      · exact ih (fun u hu => hm u (List.mem_cons_of_mem _ hu)) hv kv hx

theorem mkFresh_wf_fold (l : List SourceSpec) :
    ∀ acc : List (String × RoseArchSource),
    (acc.map Prod.fst).Nodup → (∀ kv ∈ acc, kv.2.checksum = kv.1) →
    (((l.foldl (fun m s => dictInsert m s.checksum
        { checksum := s.checksum, orig_name := s.orig_name,
          orig_path := some s.orig_path, name := s.name,
          path := some s.orig_path }) acc).map Prod.fst).Nodup ∧
     ∀ kv ∈ l.foldl (fun m s => dictInsert m s.checksum
        { checksum := s.checksum, orig_name := s.orig_name,
          orig_path := some s.orig_path, name := s.name,
          path := some s.orig_path }) acc, kv.2.checksum = kv.1) := by
  induction l with
  | nil => intro acc h1 h2; exact ⟨h1, h2⟩
  | cons s rest ih =>
    intro acc h1 h2
    simp only [List.foldl_cons]
    exact ih _ (dictInsert_keys_nodup _ _ _ h1)
      (dictInsert_values _ _ _ _ h2 rfl)

theorem mkFresh_wf (s : TargetSpec) : sourcesWF (mkFreshTarget s) :=
  mkFresh_wf_fold s.sources [] (by simp) (by intro kv h; cases h)

theorem select_of_rows (db : DB) (n : String) (row : TargetRow)
    (srows : List SourceRow) (ht : tRows db n = [row]) (hs : sRows db n = srows) :
    db.select n = some
      ⟨n, row.compress_scheme, row.command_format, row.command_rc,
       srows.foldl (fun m r => dictInsert m r.checksum
         (RoseArchSource.init r.checksum r.source_name none)) [], none, none⟩ := by
  simp only [tRows] at ht
  simp only [sRows] at hs
  unfold DB.select
  rw [← List.filter_head? (fun r => r.target_name == n) db.targets, ht, hs]
  rfl


theorem dbAgrees_congr {db db' : DB} {spec : TargetSpec}
    (ht : tRows db spec.name = tRows db' spec.name)
    (hs : sRows db spec.name = sRows db' spec.name) :
    dbAgrees db spec = dbAgrees db' spec := by
  unfold dbAgrees
  rw [DB.select_eq_of_rows ht hs]

theorem length_sub_filter {α : Type} (p : α → Bool) (l : List α) :
    l.length - (l.filter p).length = (l.filter fun a => !(p a)).length := by
  induction l with
  | nil => rfl
  | cons a t ih =>
    have h1 := List.length_filter_le p t
    cases hpa : p a <;> simp [List.filter_cons, hpa] <;> omega

theorem processedTarget_name (exec : RoseArchTarget → Int)
    (t : RoseArchTarget) : (processedTarget exec t).name = t.name := by
  simp only [processedTarget]
  exact renameSources_name ..

theorem processedTarget_status (exec : RoseArchTarget → Int)
    (t : RoseArchTarget) : (processedTarget exec t).status =
      some (if exec (renameSources "work" { t with command_rc := 1 }) == 0
        then ST_NEW else ST_BAD) := rfl

theorem processedTarget_rc (exec : RoseArchTarget → Int) (t : RoseArchTarget) :
    (processedTarget exec t).command_rc =
      exec (renameSources "work" { t with command_rc := 1 }) := rfl

theorem processedTarget_not_old (exec : RoseArchTarget → Int)
    (t : RoseArchTarget) :
    ((processedTarget exec t).status == some ST_OLD) = false := by
  rw [processedTarget_status]
  cases h : exec (renameSources "work" { t with command_rc := 1 }) == 0 <;>
    simp [h] <;> decide

theorem classify_rows_other (db : DB) (t : RoseArchTarget) {n : String}
    (h : t.name ≠ n) :
    tRows (classifyTarget db t).1 n = tRows db n ∧
    sRows (classifyTarget db t).1 n = sRows db n := by
  unfold classifyTarget
  cases db.select t.name with
  | none => exact ⟨tRows_delete_other db h, sRows_delete_other db h⟩
  | some old =>
    by_cases he : targetEq old t = true
    · simp [he]
    · simp only [he, Bool.false_eq_true, if_false]
      exact ⟨tRows_delete_other db h, sRows_delete_other db h⟩

theorem classify_of_agrees {db : DB} {s : TargetSpec}
    (hag : dbAgrees db s = true) :
    classifyTarget db (mkFreshTarget s) =
      (db, { mkFreshTarget s with status := some ST_OLD }) := by
  unfold dbAgrees at hag
  unfold classifyTarget
  rw [mkFresh_name]
  cases hsel : db.select s.name with
  | none => rw [hsel] at hag; simp at hag
  | some old =>
    rw [hsel] at hag
    simp only at hag
    simp [hag, mkFresh_name]

theorem classify_of_not_agrees {db : DB} {s : TargetSpec}
    (hag : dbAgrees db s = false) :
    classifyTarget db (mkFreshTarget s) =
      (db.delete s.name, mkFreshTarget s) := by
  unfold dbAgrees at hag
  unfold classifyTarget
  rw [mkFresh_name]
  cases hsel : db.select s.name with
  | none => rfl
  | some old =>
    rw [hsel] at hag
    simp only at hag
    simp [hag]

theorem setupTargets_length (specs : List TargetSpec) : ∀ db : DB,
    (setupTargets db specs).2.length = specs.length := by
  induction specs with
  | nil => intro db; rfl
  | cons s rest ih =>
    intro db
    simp only [setupTargets, List.length_cons]
    rw [ih]

theorem setupTargets_names (specs : List TargetSpec) : ∀ db : DB,
    ((setupTargets db specs).2.map fun t => t.name) =
      specs.map fun s => s.name := by
  induction specs with
  | nil => intro db; rfl
  | cons s rest ih =>
    intro db
    simp only [setupTargets, List.map_cons]
    rw [classify_snd_name, mkFresh_name, ih]

theorem setupTargets_frame (specs : List TargetSpec) :
    ∀ (db : DB) (n : String), (∀ s ∈ specs, s.name ≠ n) →
    tRows (setupTargets db specs).1 n = tRows db n ∧
    sRows (setupTargets db specs).1 n = sRows db n := by
  induction specs with
  | nil => intro db n _; exact ⟨rfl, rfl⟩
  | cons s rest ih =>
    intro db n h
    have hs : (mkFreshTarget s).name ≠ n := by
      rw [mkFresh_name]; exact h s (List.mem_cons_self ..)
    have hr : ∀ u ∈ rest, u.name ≠ n :=
      fun u hu => h u (List.mem_cons_of_mem _ hu)
    simp only [setupTargets]
    obtain ⟨c1, c2⟩ := classify_rows_other db (mkFreshTarget s) hs
    obtain ⟨i1, i2⟩ := ih (classifyTarget db (mkFreshTarget s)).1 n hr
    exact ⟨i1.trans c1, i2.trans c2⟩

theorem setupTargets_spec (specs : List TargetSpec) : ∀ db : DB,
    (specs.map fun s => s.name).Nodup →
    ((setupTargets db specs).2 = specs.map fun s =>
      if dbAgrees db s then { mkFreshTarget s with status := some ST_OLD }
      else mkFreshTarget s) ∧
    (∀ s ∈ specs,
      (tRows (setupTargets db specs).1 s.name =
        if dbAgrees db s then tRows db s.name else []) ∧
      (sRows (setupTargets db specs).1 s.name =
        if dbAgrees db s then sRows db s.name else [])) := by
  induction specs with
  | nil =>
    intro db _
    exact ⟨rfl, by intro s hs; cases hs⟩
  | cons s rest ih =>
    intro db hnd
    simp only [List.map_cons, List.nodup_cons] at hnd
    obtain ⟨hnotin, hndr⟩ := hnd
    have hdiff : ∀ u ∈ rest, u.name ≠ s.name := by
      intro u hu heq
      exact hnotin (heq ▸ List.mem_map_of_mem _ hu)
    by_cases hag : dbAgrees db s = true
    · -- the persisted snapshot equals the fresh target: classify keeps db
      obtain ⟨ihmap, ihrows⟩ := ih db hndr
      constructor
      · simp only [setupTargets, classify_of_agrees hag, List.map_cons,
          if_pos hag]
        exact congrArg _ ihmap
      · intro u hu
        rcases List.mem_cons.mp hu with rfl | hur
        · obtain ⟨f1, f2⟩ :=
            setupTargets_frame rest db u.name (fun v hv => hdiff v hv)
          simp only [setupTargets, classify_of_agrees hag, if_pos hag]
          exact ⟨f1, f2⟩
        · have := ihrows u hur
          simpa only [setupTargets, classify_of_agrees hag] using this
    · -- absent or different snapshot: classify deletes the rows
      have hagf : dbAgrees db s = false := by
        cases hg : dbAgrees db s
        · rfl
        · exact absurd hg hag
      obtain ⟨ihmap, ihrows⟩ := ih (db.delete s.name) hndr
      have htr : ∀ u ∈ rest, dbAgrees (db.delete s.name) u = dbAgrees db u := by
        intro u hu
        exact dbAgrees_congr (tRows_delete_other db (Ne.symm (hdiff u hu)))
          (sRows_delete_other db (Ne.symm (hdiff u hu)))
      constructor
      · simp only [setupTargets, classify_of_not_agrees hagf, List.map_cons,
          if_neg hag]
        refine congrArg _ ?_
        rw [ihmap]
        exact List.map_congr_left fun u hu => by rw [htr u hu]
      · intro u hu
        rcases List.mem_cons.mp hu with rfl | hur
        · obtain ⟨f1, f2⟩ :=
            setupTargets_frame rest (db.delete u.name) u.name
              (fun v hv => hdiff v hv)
          simp only [setupTargets, classify_of_not_agrees hagf, if_neg hag]
          exact ⟨f1.trans (tRows_delete_self db u.name),
                 f2.trans (sRows_delete_self db u.name)⟩
        · obtain ⟨t1, t2⟩ := ihrows u hur
          rw [htr u hur] at t1 t2
          simp only [setupTargets, classify_of_not_agrees hagf]
          constructor
          · rw [t1]
            by_cases hu2 : dbAgrees db u = true
            · rw [if_pos hu2, if_pos hu2,
                tRows_delete_other db (Ne.symm (hdiff u hur))]
            · rw [if_neg hu2, if_neg hu2]
          · rw [t2]
            by_cases hu2 : dbAgrees db u = true
            · rw [if_pos hu2, if_pos hu2,
                sRows_delete_other db (Ne.symm (hdiff u hur))]
            · rw [if_neg hu2, if_neg hu2]

theorem tRows_update_name (db : DB) (u : RoseArchTarget) {n : String}
    (h : u.name = n) :
    tRows (db.update_command_rc u) n =
      (tRows db n).map fun r => { r with command_rc := u.command_rc } := by
  subst h
  exact tRows_update_self db u

theorem tRows_insert_name (db : DB) (u : RoseArchTarget) {n : String}
    (h : u.name = n) :
    tRows (db.insert u) n = tRows db n ++ [targetRowOf u] := by
  subst h
  exact tRows_insert_self db u

theorem sRows_insert_name (db : DB) (u : RoseArchTarget) {n : String}
    (h : u.name = n) :
    sRows (db.insert u) n = sRows db n ++ sourceRowsOf u := by
  subst h
  exact sRows_insert_self db u

theorem processTarget_old {exec : RoseArchTarget → Int} {db : DB}
    {t : RoseArchTarget} (h : (t.status == some ST_OLD) = true) :
    processTarget exec db t = (db, t, none) := by
  unfold processTarget
  rw [if_pos h]

theorem processTarget_not_old {exec : RoseArchTarget → Int} {db : DB}
    {t : RoseArchTarget} (h : (t.status == some ST_OLD) = false) :
    processTarget exec db t =
      ((db.insert { t with command_rc := 1 }).update_command_rc
         (processedTarget exec t),
       processedTarget exec t, some t.name) := by
  unfold processTarget
  rw [h]
  simp

theorem process_rows_other (exec : RoseArchTarget → Int) (db : DB)
    (t : RoseArchTarget) {n : String} (h : t.name ≠ n) :
    tRows (processTarget exec db t).1 n = tRows db n ∧
    sRows (processTarget exec db t).1 n = sRows db n := by
  by_cases ho : (t.status == some ST_OLD) = true
  · rw [processTarget_old ho]
    exact ⟨rfl, rfl⟩
  · have hof : (t.status == some ST_OLD) = false := by
      cases hg : t.status == some ST_OLD
      · rfl
      · exact absurd hg ho
    rw [processTarget_not_old hof]
    have hp : (processedTarget exec t).name ≠ n := by
      rw [processedTarget_name]; exact h
    have h1 : ({ t with command_rc := 1 } : RoseArchTarget).name ≠ n := h
    constructor
    · rw [show tRows ((db.insert { t with command_rc := 1 }).update_command_rc
          (processedTarget exec t), processedTarget exec t,
          some t.name).1 n = tRows ((db.insert
          { t with command_rc := 1 }).update_command_rc
          (processedTarget exec t)) n from rfl,
        tRows_update_other _ hp, tRows_insert_other db h1]
    · rw [show sRows ((db.insert { t with command_rc := 1 }).update_command_rc
          (processedTarget exec t), processedTarget exec t,
          some t.name).1 n = sRows ((db.insert
          { t with command_rc := 1 }).update_command_rc
          (processedTarget exec t)) n from rfl,
        sRows_update, sRows_insert_other db h1]

theorem process_rows_self (exec : RoseArchTarget → Int) (db : DB)
    (t : RoseArchTarget) (hnold : (t.status == some ST_OLD) = false)
    (ht : tRows db t.name = []) (hs : sRows db t.name = []) :
    tRows (processTarget exec db t).1 t.name =
      [⟨t.name, t.compress_scheme, t.command_format,
        exec (renameSources "work" { t with command_rc := 1 })⟩] ∧
    sRows (processTarget exec db t).1 t.name = sourceRowsOf t := by
  rw [processTarget_not_old hnold]
  have hp : (processedTarget exec t).name = t.name := processedTarget_name ..
  have h1 : ({ t with command_rc := 1 } : RoseArchTarget).name = t.name := rfl
  constructor
  · rw [show tRows ((db.insert { t with command_rc := 1 }).update_command_rc
        (processedTarget exec t), processedTarget exec t,
        some t.name).1 t.name = tRows ((db.insert
        { t with command_rc := 1 }).update_command_rc
        (processedTarget exec t)) t.name from rfl,
      tRows_update_name _ _ hp, tRows_insert_name db _ h1, ht]
    rfl
  · rw [show sRows ((db.insert { t with command_rc := 1 }).update_command_rc
        (processedTarget exec t), processedTarget exec t,
        some t.name).1 t.name = sRows ((db.insert
        { t with command_rc := 1 }).update_command_rc
        (processedTarget exec t)) t.name from rfl,
      sRows_update, sRows_insert_name db _ h1, hs]
    rfl

theorem updateTargets_frame (exec : RoseArchTarget → Int)
    (ts : List RoseArchTarget) : ∀ (db : DB) (n : String),
    (∀ t ∈ ts, t.name ≠ n) →
    tRows (updateTargets exec db ts).1 n = tRows db n ∧
    sRows (updateTargets exec db ts).1 n = sRows db n := by
  induction ts with
  | nil => intro db n _; exact ⟨rfl, rfl⟩
  | cons t rest ih =>
    intro db n h
    simp only [updateTargets]
    obtain ⟨c1, c2⟩ :=
      process_rows_other exec db t (h t (List.mem_cons_self ..))
    obtain ⟨i1, i2⟩ := ih (processTarget exec db t).1 n
      (fun u hu => h u (List.mem_cons_of_mem _ hu))
    exact ⟨i1.trans c1, i2.trans c2⟩

theorem updateTargets_length (exec : RoseArchTarget → Int)
    (ts : List RoseArchTarget) : ∀ db : DB,
    (updateTargets exec db ts).2.1.length = ts.length := by
  induction ts with
  | nil => intro db; rfl
  | cons t rest ih =>
    intro db
    simp only [updateTargets, List.length_cons]
    rw [ih]

theorem updateTargets_all_old (exec : RoseArchTarget → Int)
    (ts : List RoseArchTarget) : ∀ db : DB,
    (∀ t ∈ ts, t.status = some ST_OLD) →
    updateTargets exec db ts = (db, ts, []) := by
  induction ts with
  | nil => intro db _; rfl
  | cons t rest ih =>
    intro db h
    have hg : (t.status == some ST_OLD) = true := by
      rw [h t (List.mem_cons_self ..)]
      simp
    simp only [updateTargets, processTarget_old hg,
      ih db (fun u hu => h u (List.mem_cons_of_mem _ hu))]

theorem updateTargets_exec_char (exec : RoseArchTarget → Int)
    (ts : List RoseArchTarget) : ∀ db : DB,
    (updateTargets exec db ts).2.2 =
      ((updateTargets exec db ts).2.1.filter
        fun t => t.status != some ST_OLD).map fun t => t.name := by
  induction ts with
  | nil => intro db; rfl
  | cons t rest ih =>
    intro db
    by_cases hg : (t.status == some ST_OLD) = true
    · simp only [updateTargets, processTarget_old hg, List.filter_cons]
      rw [show (t.status != some ST_OLD) = false by simp [bne, hg]]
      simp only [Bool.false_eq_true, if_false]
      exact ih db
    · have hgf : (t.status == some ST_OLD) = false := by
        cases hx : t.status == some ST_OLD
        · rfl
        · exact absurd hx hg
      simp only [updateTargets, processTarget_not_old hgf, List.filter_cons]
      rw [show ((processedTarget exec t).status != some ST_OLD) = true by
        simp [bne, processedTarget_not_old]]
      simp only [if_true, List.map_cons]
      rw [processedTarget_name, ih]

theorem updateTargets_rows (exec : RoseArchTarget → Int)
    (ts : List RoseArchTarget) : ∀ db : DB,
    (ts.map fun t => t.name).Nodup →
    (∀ t ∈ ts, t.status = some ST_OLD ∨
      (tRows db t.name = [] ∧ sRows db t.name = [])) →
    ∀ t ∈ ts,
      ((t.status == some ST_OLD) = true →
        tRows (updateTargets exec db ts).1 t.name = tRows db t.name ∧
        sRows (updateTargets exec db ts).1 t.name = sRows db t.name) ∧
      ((t.status == some ST_OLD) = false →
        tRows (updateTargets exec db ts).1 t.name =
          [⟨t.name, t.compress_scheme, t.command_format,
            exec (renameSources "work" { t with command_rc := 1 })⟩] ∧
        sRows (updateTargets exec db ts).1 t.name = sourceRowsOf t) := by
  induction ts with
  | nil => intro db _ _ t ht; cases ht
  | cons t0 rest ih =>
    intro db hnd hpre t ht
    simp only [List.map_cons, List.nodup_cons] at hnd
    obtain ⟨hnotin, hndr⟩ := hnd
    have hdiff : ∀ u ∈ rest, u.name ≠ t0.name := by
      intro u hu heq
      exact hnotin (heq ▸ List.mem_map_of_mem _ hu)
    rcases List.mem_cons.mp ht with rfl | hur
    · -- the head target itself
      constructor
      · intro hold
        rw [show updateTargets exec db (t :: rest) =
            (let p := processTarget exec db t;
             let q := updateTargets exec p.1 rest;
             (q.1, p.2.1 :: q.2.1,
              match p.2.2 with
              | some n => n :: q.2.2
              | none => q.2.2)) from rfl]
        simp only [processTarget_old hold]
        exact updateTargets_frame exec rest db t.name
          (fun u hu => hdiff u hu)
      · intro hnold
        have hclean : tRows db t.name = [] ∧ sRows db t.name = [] := by
          rcases hpre t (List.mem_cons_self ..) with hst | hcl
          · rw [hst] at hnold; simp at hnold
          · exact hcl
        obtain ⟨p1, p2⟩ :=
          process_rows_self exec db t hnold hclean.1 hclean.2
        have hfr := updateTargets_frame exec rest
          (processTarget exec db t).1 t.name (fun u hu => hdiff u hu)
        simp only [updateTargets]
        exact ⟨hfr.1.trans p1, hfr.2.trans p2⟩
    · -- a target of the tail
      have hpre' : ∀ u ∈ rest, u.status = some ST_OLD ∨
          (tRows (processTarget exec db t0).1 u.name = [] ∧
           sRows (processTarget exec db t0).1 u.name = []) := by
        intro u hu
        rcases hpre u (List.mem_cons_of_mem _ hu) with hst | hcl
        · exact Or.inl hst
        · obtain ⟨c1, c2⟩ := process_rows_other exec db t0
            (Ne.symm (hdiff u hu) : t0.name ≠ u.name)
          exact Or.inr ⟨c1.trans hcl.1, c2.trans hcl.2⟩
      have hres := ih (processTarget exec db t0).1 hndr hpre' t hur
      obtain ⟨c1, c2⟩ := process_rows_other exec db t0
        (Ne.symm (hdiff t hur) : t0.name ≠ t.name)
      constructor
      · intro hold
        obtain ⟨r1, r2⟩ := hres.1 hold
        simp only [updateTargets]
        exact ⟨r1.trans c1, r2.trans c2⟩
      · intro hnold
        obtain ⟨r1, r2⟩ := hres.2 hnold
        simp only [updateTargets]
        exact ⟨r1, r2⟩


theorem classifiedTarget_name (db0 : DB) (s : TargetSpec) :
    (classifiedTarget db0 s).name = s.name := by
  unfold classifiedTarget
  by_cases h : dbAgrees db0 s = true
  · rw [if_pos h]; exact mkFresh_name s
  · rw [if_neg h]; exact mkFresh_name s

theorem runArch_db_def (specs : List TargetSpec) (db : DB)
    (exec : RoseArchTarget → Int) : (runArch specs db exec).db =
      (updateTargets exec
        ((setupTargets db specs).1.delete_all (setupTargets db specs).2)
        (setupTargets db specs).2).1 := rfl

theorem runArch_targets_def (specs : List TargetSpec) (db : DB)
    (exec : RoseArchTarget → Int) : (runArch specs db exec).targets =
      (updateTargets exec
        ((setupTargets db specs).1.delete_all (setupTargets db specs).2)
        (setupTargets db specs).2).2.1 := rfl

theorem runArch_executed_def (specs : List TargetSpec) (db : DB)
    (exec : RoseArchTarget → Int) : (runArch specs db exec).executed =
      (updateTargets exec
        ((setupTargets db specs).1.delete_all (setupTargets db specs).2)
        (setupTargets db specs).2).2.2 := rfl

theorem runArch_rc_def (specs : List TargetSpec) (db : DB)
    (exec : RoseArchTarget → Int) : (runArch specs db exec).rc =
      (runArch specs db exec).targets.length -
        ((runArch specs db exec).targets.filter
          fun t => t.command_rc == 0).length := rfl

theorem setup_keeps (specs : List TargetSpec) (db0 : DB) :
    ∀ s ∈ specs,
    tRows ((setupTargets db0 specs).1.delete_all (setupTargets db0 specs).2)
        s.name = tRows (setupTargets db0 specs).1 s.name ∧
    sRows ((setupTargets db0 specs).1.delete_all (setupTargets db0 specs).2)
        s.name = sRows (setupTargets db0 specs).1 s.name := by
  intro s hs
  have hmem : s.name ∈ (setupTargets db0 specs).2.map fun t => t.name := by
    rw [setupTargets_names]
    exact List.mem_map_of_mem _ hs
  obtain ⟨t, htm, hteq⟩ := List.mem_map.mp hmem
  have hany : ((setupTargets db0 specs).2.any fun t => t.name == s.name) = true :=
    List.any_eq_true.mpr ⟨t, htm, by rw [hteq]; simp⟩
  exact ⟨tRows_delete_all_kept _ hany, sRows_delete_all_kept _ hany⟩

theorem runArch_agrees (specs : List TargetSpec) (db0 : DB)
    (exec : RoseArchTarget → Int)
    (hnd : (specs.map fun s => s.name).Nodup) (hz : ∀ x, exec x = 0) :
    ∀ s ∈ specs, dbAgrees (runArch specs db0 exec).db s = true := by
  intro s hs
  obtain ⟨hmap0, hrows⟩ := setupTargets_spec specs db0 hnd
  have hmap : (setupTargets db0 specs).2 = specs.map (classifiedTarget db0) :=
    hmap0
  have hnames : ((setupTargets db0 specs).2.map fun t => t.name) =
      specs.map fun s => s.name := setupTargets_names specs db0
  have hndts : ((setupTargets db0 specs).2.map fun t => t.name).Nodup := by
    rw [hnames]; exact hnd
  -- the pruned store keeps every current target's rows
  have hpre : ∀ t ∈ (setupTargets db0 specs).2, t.status = some ST_OLD ∨
      (tRows ((setupTargets db0 specs).1.delete_all
        (setupTargets db0 specs).2) t.name = [] ∧
       sRows ((setupTargets db0 specs).1.delete_all
        (setupTargets db0 specs).2) t.name = []) := by
    intro t htm
    rw [hmap] at htm
    obtain ⟨u, hu, rfl⟩ := List.mem_map.mp htm
    by_cases hagu : dbAgrees db0 u = true
    · left
      unfold classifiedTarget
      rw [if_pos hagu]
    · right
      have hte : classifiedTarget db0 u = mkFreshTarget u := by
        unfold classifiedTarget; rw [if_neg hagu]
      rw [hte, mkFresh_name]
      obtain ⟨k1, k2⟩ := setup_keeps specs db0 u hu
      obtain ⟨r1, r2⟩ := hrows u hu
      rw [if_neg hagu] at r1 r2
      exact ⟨k1.trans r1, k2.trans r2⟩
  have hupd := updateTargets_rows exec (setupTargets db0 specs).2
    ((setupTargets db0 specs).1.delete_all (setupTargets db0 specs).2)
    hndts hpre
  have hsmem : classifiedTarget db0 s ∈ (setupTargets db0 specs).2 := by
    rw [hmap]; exact List.mem_map_of_mem _ hs
  have hent := hupd (classifiedTarget db0 s) hsmem
  obtain ⟨k1, k2⟩ := setup_keeps specs db0 s hs
  obtain ⟨r1, r2⟩ := hrows s hs
  rw [runArch_db_def]
  by_cases hag0 : dbAgrees db0 s = true
  · -- kept snapshot: the final rows of s are exactly the initial rows
    have hold : ((classifiedTarget db0 s).status == some ST_OLD) = true := by
      unfold classifiedTarget
      rw [if_pos hag0]
      simp
    obtain ⟨f1, f2⟩ := hent.1 hold
    rw [classifiedTarget_name] at f1 f2
    rw [if_pos hag0] at r1 r2
    have e1 : tRows (updateTargets exec
        ((setupTargets db0 specs).1.delete_all (setupTargets db0 specs).2)
        (setupTargets db0 specs).2).1 s.name = tRows db0 s.name :=
      f1.trans (k1.trans r1)
    have e2 : sRows (updateTargets exec
        ((setupTargets db0 specs).1.delete_all (setupTargets db0 specs).2)
        (setupTargets db0 specs).2).1 s.name = sRows db0 s.name :=
      f2.trans (k2.trans r2)
    rw [dbAgrees_congr e1 e2]
    exact hag0
  · -- fresh target: the final rows are the rows written for it, exit code 0
    have hte : classifiedTarget db0 s = mkFreshTarget s := by
      unfold classifiedTarget; rw [if_neg hag0]
    have hnold : ((classifiedTarget db0 s).status == some ST_OLD) = false := by
      rw [hte]
      simp [mkFreshTarget, ST_OLD]
    obtain ⟨f1, f2⟩ := hent.2 hnold
    rw [hte, mkFresh_name] at f1 f2
    rw [hz] at f1
    have hsel := select_of_rows _ s.name _ _ f1 f2
    unfold dbAgrees
    rw [hsel]
    have : targetEq (reconstructOf (mkFreshTarget s)) (mkFreshTarget s) = true :=
      targetEq_reconstruct (mkFreshTarget s) (mkFresh_wf s)
    exact this

theorem runArch_all_old (specs : List TargetSpec) (db : DB)
    (exec : RoseArchTarget → Int)
    (hnd : (specs.map fun s => s.name).Nodup)
    (hag : ∀ s ∈ specs, dbAgrees db s = true) :
    (runArch specs db exec).targets =
      specs.map (fun s => { mkFreshTarget s with status := some ST_OLD }) ∧
    (runArch specs db exec).executed = [] := by
  obtain ⟨hmap, _⟩ := setupTargets_spec specs db hnd
  have hts : (setupTargets db specs).2 =
      specs.map fun s => { mkFreshTarget s with status := some ST_OLD } := by
    rw [hmap]
    exact List.map_congr_left fun u hu => by rw [if_pos (hag u hu)]
  have hold : ∀ t ∈ (setupTargets db specs).2, t.status = some ST_OLD := by
    rw [hts]
    intro t ht
    obtain ⟨u, _, rfl⟩ := List.mem_map.mp ht
    rfl
  have hupd := updateTargets_all_old exec (setupTargets db specs).2
    ((setupTargets db specs).1.delete_all (setupTargets db specs).2) hold
  constructor
  · rw [runArch_targets_def, hupd]
    exact hts
  · rw [runArch_executed_def, hupd]


/-- C1 (amended): running twice with unchanged resolver output (unchanged
sources and configuration) over any starting store classifies every target
`ST_OLD` on the second run, executes zero commands there and returns 0 —
provided the resolved target names are pairwise distinct (duplicate names
abort the first run on the primary-key constraint) and every command of
the first run exits 0 (a target that failed is deliberately reprocessed,
see C10). -/
theorem C1_idempotent_after_success (specs : List TargetSpec) (db0 : DB)
    (exec1 exec2 : RoseArchTarget → Int)
    (hnd : (specs.map fun s => s.name).Nodup)
    (hz : ∀ t, exec1 t = 0) :
    ((runArch specs (runArch specs db0 exec1).db exec2).targets.all
      fun t => t.status == some ST_OLD) = true ∧
    (runArch specs (runArch specs db0 exec1).db exec2).executed = [] ∧
    (runArch specs (runArch specs db0 exec1).db exec2).rc = 0 := by
  have hag := runArch_agrees specs db0 exec1 hnd hz
  obtain ⟨htg, hex⟩ :=
    runArch_all_old specs (runArch specs db0 exec1).db exec2 hnd hag
  refine ⟨?_, hex, ?_⟩
  · rw [htg, List.all_eq_true]
    intro t ht
    obtain ⟨u, _, rfl⟩ := List.mem_map.mp ht
    simp
  · rw [runArch_rc_def, htg]
    have hfil : ((specs.map fun s =>
        { mkFreshTarget s with status := some ST_OLD }).filter
          fun t => t.command_rc == 0) =
        specs.map fun s => { mkFreshTarget s with status := some ST_OLD } := by
      rw [List.filter_eq_self]
      intro t ht
      obtain ⟨u, _, rfl⟩ := List.mem_map.mp ht
      simp [mkFreshTarget]
    rw [hfil, Nat.sub_self]

/-- C1 witness: the amended idempotence on a concrete one-target run whose
first command exits 0 (the second-run oracle is irrelevant and never
invoked). -/
theorem C1_idempotent_witness :
    ((runArch [exSpec] (runArch [exSpec] emptyDB (fun _ => 0)).db
      (fun _ => 9)).targets.all fun t => t.status == some ST_OLD) = true ∧
    (runArch [exSpec] (runArch [exSpec] emptyDB (fun _ => 0)).db
      (fun _ => 9)).executed = [] ∧
    (runArch [exSpec] (runArch [exSpec] emptyDB (fun _ => 0)).db
      (fun _ => 9)).rc = 0 :=
  C1_idempotent_after_success [exSpec] emptyDB (fun _ => 0) (fun _ => 9)
    (by decide) (fun _ => rfl)

/-- C5: the value `_run` returns is exactly the number of targets whose
final `command_rc` is non-zero; every configured target is processed (the
output target list has one entry per resolved target, in order), and the
commands executed are exactly those of the targets not classified
`ST_OLD`, whatever exit codes earlier targets produced — no
short-circuit. -/
theorem C5_aggregate_result (specs : List TargetSpec) (db : DB)
    (exec : RoseArchTarget → Int) :
    (runArch specs db exec).rc =
      ((runArch specs db exec).targets.filter
        fun t => t.command_rc != 0).length ∧
    (runArch specs db exec).targets.length = specs.length ∧
    (runArch specs db exec).executed =
      ((runArch specs db exec).targets.filter
        fun t => t.status != some ST_OLD).map fun t => t.name := by
  refine ⟨?_, ?_, ?_⟩
  · rw [runArch_rc_def, length_sub_filter]
    rfl
  · rw [runArch_targets_def, updateTargets_length, setupTargets_length]
  · rw [runArch_executed_def, runArch_targets_def, updateTargets_exec_char]

/-- C10: a persisted snapshot recording a non-zero command exit code never
classifies as `ST_OLD` against the freshly resolved target (whose
`command_rc` is 0 by construction), so such a target is reprocessed: on a
run over it, its command is executed again. -/
theorem C10_failed_rc_reprocessed (db : DB) (spec : TargetSpec)
    (old : RoseArchTarget) (hsel : db.select spec.name = some old)
    (hrc : old.command_rc ≠ 0) :
    (classifyTarget db (mkFreshTarget spec)).2.status ≠ some ST_OLD ∧
    ∀ exec : RoseArchTarget → Int,
      (runArch [spec] db exec).executed = [spec.name] := by
  have hne : targetEq old (mkFreshTarget spec) = false := by
    cases hg : targetEq old (mkFreshTarget spec)
    · rfl
    · exact absurd (targetEq_rc hg) (by
        rw [show (mkFreshTarget spec).command_rc = 0 from rfl]
        exact hrc)
  have hagf : dbAgrees db spec = false := by
    unfold dbAgrees
    rw [hsel]
    exact hne
  have hcl := classify_of_not_agrees hagf
  constructor
  · rw [hcl]
    simp [mkFreshTarget]
  · intro exec
    rw [runArch_executed_def]
    have hsetup : setupTargets db [spec] =
        (db.delete spec.name, [mkFreshTarget spec]) := by
      simp only [setupTargets, hcl]
    rw [hsetup]
    have hnold : ((mkFreshTarget spec).status == some ST_OLD) = false := by
      simp [mkFreshTarget, ST_OLD]
    simp only [updateTargets, processTarget_not_old hnold]
    simp [mkFresh_name]

/-- C10 witness: a store recording exit code 1 for the target forces its
reprocessing. -/
theorem C10_failed_rc_witness :
    (runArch [exSpec] exDB10 (fun _ => 4)).executed = [exSpec.name] :=
  (C10_failed_rc_reprocessed exDB10 exSpec exOld10 (by decide)
    (by decide)).2 (fun _ => 4)
